import Mathlib

/-!
Verification model of py-app-standalone (pip_build_standalone/build.py).

Bytes are modelled as Nat values; file contents are lists of bytes.
The search-replace engine (module pip_build_standalone.search_replace_files,
whose source is not part of this tree) is modelled from the spec; the
orchestration in build.py is modelled directly from its source.
-/

namespace PyAppStandalone

/-- Modelled from the spec: the Path Search-Replace Engine (module
search_replace_files, not in this tree) counts occurrences of old_bytes in a
file's content.  Occurrences are counted the standard way byte-string search
works: scanning left to right, non-overlapping, resuming right after each
match.  An empty pattern matches nothing. -/
def countOccs (old : List Nat) : List Nat → Nat
  | [] => 0
  | c :: cs =>
    if old.isPrefixOf (c :: cs) && !old.isEmpty then
      1 + countOccs old ((c :: cs).drop old.length)
    else
      countOccs old cs
termination_by l => l.length
decreasing_by
  · rename_i h
    simp only [Bool.and_eq_true, Bool.not_eq_true', List.isEmpty_eq_false] at h
    have hlen : 0 < old.length := List.length_pos.mpr h.2
    simp only [List.length_drop, List.length_cons]
    omega
  · simp only [List.length_cons]
    omega

/-- Modelled from the spec: the Path Search-Replace Engine replaces every
occurrence of old_bytes with new_bytes, scanning left to right,
non-overlapping, preserving all other bytes exactly.  An empty pattern
replaces nothing. -/
def replaceAll (old newB : List Nat) : List Nat → List Nat
  | [] => []
  | c :: cs =>
    if old.isPrefixOf (c :: cs) && !old.isEmpty then
      newB ++ replaceAll old newB ((c :: cs).drop old.length)
    else
      c :: replaceAll old newB cs
termination_by l => l.length
decreasing_by
  · rename_i h
    simp only [Bool.and_eq_true, Bool.not_eq_true', List.isEmpty_eq_false] at h
    have hlen : 0 < old.length := List.length_pos.mpr h.2
    simp only [List.length_drop, List.length_cons]
    omega
  · simp only [List.length_cons]
    omega

/-- Decomposition of a byte string at the scanned (leftmost, non-overlapping)
occurrences of a pattern: the list of maximal stretches lying between the
occurrences.  Used to state what the replace pass does to a file. -/
def splitOnSeq (old : List Nat) : List Nat → List (List Nat)
  | [] => [[]]
  | c :: cs =>
    if old.isPrefixOf (c :: cs) && !old.isEmpty then
      [] :: splitOnSeq old ((c :: cs).drop old.length)
    else
      match splitOnSeq old cs with
      | [] => [[c]]
      | p :: ps => (c :: p) :: ps
termination_by l => l.length
decreasing_by
  · rename_i h
    simp only [Bool.and_eq_true, Bool.not_eq_true', List.isEmpty_eq_false] at h
    have hlen : 0 < old.length := List.length_pos.mpr h.2
    simp only [List.length_drop, List.length_cons]
    omega
  · simp only [List.length_cons]
    omega

/-- Joins a list of byte stretches, putting the separator between consecutive
stretches. -/
def joinWith (sep : List Nat) : List (List Nat) → List Nat
  | [] => []
  | [p] => p
  | p :: ps => p ++ sep ++ joinWith sep ps

/-- Spec-side definition of the occurrence count of the claims: the content
decomposes into n + 1 pattern-free stretches separated by n copies of the
pattern, and the occurrence count is that n. -/
def numOccsSpec (old content : List Nat) : Nat :=
  (splitOnSeq old content).length - 1

/-- One component of a glob pattern, matched against one path component.
Modelled from the spec: the engine expands glob patterns supporting the
recursive wildcard.  The component shapes cover the patterns build.py uses:
a literal name, a bare star, a star with a fixed name suffix such as star.py,
and the recursive double-star. -/
inductive GlobSeg where
  | lit (s : String)
  | star
  | starSuffix (suf : String)
  | deep
deriving DecidableEq

/-- Matches a glob pattern, given as a list of components, against a file
path, given as a list of path components.  The deep component matches zero or
more path components. -/
def globMatch : List GlobSeg → List String → Bool
  | [], [] => true
  | [], _ :: _ => false
  | .lit s :: ps, c :: cs => s == c && globMatch ps cs
  | .star :: ps, _ :: cs => globMatch ps cs
  | .starSuffix suf :: ps, c :: cs => suf.data.isSuffixOf c.data && globMatch ps cs
  | .deep :: ps, cs =>
    globMatch ps cs ||
      (match cs with
       | [] => false
       | _ :: cs => globMatch (.deep :: ps) cs)
  | _ :: _, [] => false
termination_by ps cs => (cs.length, ps.length)

/-- A file of the modelled filesystem: a path (as components), a byte
content, and a modification counter standing for the file's modification
metadata (bumped exactly when the engine rewrites the file). -/
structure SRFile where
  path : List String
  content : List Nat
  mtime : Nat
deriving DecidableEq

/-- Whether a file is in the expanded file set of a list of glob patterns. -/
def SRFile.selected (pats : List (List GlobSeg)) (f : SRFile) : Bool :=
  pats.any (fun p => globMatch p f.path)

/-- Modelled from the spec: what the Path Search-Replace Engine does to one
file in the expanded set.  In scan-only mode (newB = none) the file is left
as is; in replace mode a file containing at least one occurrence is rewritten
with every occurrence replaced (its modification counter is bumped), and a
file containing none is left untouched. -/
def srStep (old : List Nat) (newB : Option (List Nat)) (f : SRFile) : SRFile :=
  match newB with
  | none => f
  | some nb =>
    if countOccs old f.content > 0 then
      { f with content := replaceAll old nb f.content, mtime := f.mtime + 1 }
    else f

/-- Modelled from the spec: the Path Search-Replace Engine
(search_replace_in_files of module search_replace_files, not in this tree).
Expands the glob patterns over the filesystem into a file set, processes each
selected file, and returns the resulting filesystem together with the total
occurrence count over the selected files. -/
def srApply (pats : List (List GlobSeg)) (old : List Nat)
    (newB : Option (List Nat)) (f : SRFile) : SRFile :=
  if f.selected pats then srStep old newB f else f

/-- The contribution of one file to the returned total: files outside the
expanded set are not scanned. -/
def srCount (pats : List (List GlobSeg)) (old : List Nat) (f : SRFile) :
    Nat :=
  if f.selected pats then countOccs old f.content else 0

def search_replace_in_files (pats : List (List GlobSeg)) (fs : List SRFile)
    (old : List Nat) (newB : Option (List Nat)) : List SRFile × Nat :=
  (fs.map (srApply pats old newB), (fs.map (srCount pats old)).sum)

/-- The scan guard used by the engine holds exactly when the pattern is a
non-empty leading stretch of the scanned tail. -/
theorem guard_iff (old l : List Nat) :
    (old.isPrefixOf l && !old.isEmpty) = true ↔ old <+: l ∧ old ≠ [] := by
  simp [ List.isPrefixOf_iff_prefix, List.isEmpty_eq_false]

/-- A byte string with a given leading stretch is that stretch followed by
the corresponding drop. -/
theorem eq_append_drop_of_pref {l₁ l₂ : List Nat} (h : l₁ <+: l₂) :
    l₂ = l₁ ++ l₂.drop l₁.length := by
  obtain ⟨t, rfl⟩ := h
  simp

theorem splitOnSeq_ne_nil (old l : List Nat) : splitOnSeq old l ≠ [] := by
  induction l using splitOnSeq.induct old with
  | case1 => simp [splitOnSeq]
  | case2 c cs h ih =>
    rw [splitOnSeq, if_pos h]
    simp
  | case3 c cs h hs =>
    rw [splitOnSeq, if_neg h, hs]
    simp
  | case4 c cs h p ps hs ih =>
    rw [splitOnSeq, if_neg h, hs]
    simp

theorem joinWith_cons_of_ne_nil (sep p : List Nat) {ps : List (List Nat)}
    (h : ps ≠ []) : joinWith sep (p :: ps) = p ++ sep ++ joinWith sep ps := by
  cases ps with
  | nil => exact absurd rfl h
  | cons q qs => simp [joinWith]

theorem joinWith_cons_cons (sep : List Nat) (c : Nat) (p : List Nat)
    (ps : List (List Nat)) :
    joinWith sep ((c :: p) :: ps) = c :: joinWith sep (p :: ps) := by
  cases ps <;> simp [joinWith]

/-- Recombining the stretches of splitOnSeq with the pattern itself gives
back the original content: the decomposition loses no bytes. -/
theorem joinWith_splitOnSeq (old l : List Nat) :
    joinWith old (splitOnSeq old l) = l := by
  induction l using splitOnSeq.induct old with
  | case1 => simp [splitOnSeq, joinWith]
  | case2 c cs h ih =>
    rw [splitOnSeq, if_pos h]
    rw [joinWith_cons_of_ne_nil old [] (splitOnSeq_ne_nil old _), ih]
    have hp := (guard_iff old (c :: cs)).mp h
    simpa using (eq_append_drop_of_pref hp.1).symm
  | case3 c cs h hs => exact absurd hs (splitOnSeq_ne_nil old cs)
  | case4 c cs h p ps hs ih =>
    rw [splitOnSeq, if_neg h, hs]
    rw [joinWith_cons_cons]
    rw [hs] at ih
    rw [ih]

/-- The replace pass produces exactly the stretches of the original content,
rejoined with the new bytes in place of each occurrence of the old bytes. -/
theorem replaceAll_eq_joinWith (old newB l : List Nat) :
    replaceAll old newB l = joinWith newB (splitOnSeq old l) := by
  induction l using splitOnSeq.induct old with
  | case1 => simp [splitOnSeq, replaceAll, joinWith]
  | case2 c cs h ih =>
    rw [replaceAll, if_pos h, splitOnSeq, if_pos h]
    rw [joinWith_cons_of_ne_nil newB [] (splitOnSeq_ne_nil old _), ih]
    simp
  | case3 c cs h hs => exact absurd hs (splitOnSeq_ne_nil old cs)
  | case4 c cs h p ps hs ih =>
    rw [replaceAll, if_neg h, splitOnSeq, if_neg h, hs]
    rw [joinWith_cons_cons]
    rw [hs] at ih
    rw [ih]

/-- The occurrence count is the number of separators of the stretch
decomposition. -/
theorem countOccs_eq_numOccsSpec (old l : List Nat) :
    countOccs old l = numOccsSpec old l := by
  unfold numOccsSpec
  induction l using splitOnSeq.induct old with
  | case1 => simp [splitOnSeq, countOccs]
  | case2 c cs h ih =>
    rw [countOccs, if_pos h, splitOnSeq, if_pos h]
    have hne := splitOnSeq_ne_nil old ((c :: cs).drop old.length)
    have hlen : 0 < (splitOnSeq old ((c :: cs).drop old.length)).length :=
      List.length_pos.mpr hne
    simp only [List.length_cons, ih]
    omega
  | case3 c cs h hs => exact absurd hs (splitOnSeq_ne_nil old cs)
  | case4 c cs h p ps hs ih =>
    rw [countOccs, if_neg h, splitOnSeq, if_neg h, hs]
    rw [hs] at ih
    simpa using ih

/-- The head stretch of the decomposition is a leading stretch of the
content. -/
theorem splitOnSeq_head_pref (old l : List Nat) {p : List Nat}
    {ps : List (List Nat)} (h : splitOnSeq old l = p :: ps) : p <+: l := by
  have h1 := joinWith_splitOnSeq old l
  rw [h] at h1
  cases ps with
  | nil => rw [joinWith] at h1; exact h1 ▸ List.prefix_rfl
  | cons q qs =>
    rw [joinWith_cons_of_ne_nil old p (by simp)] at h1
    exact h1 ▸ ((List.prefix_append p old).trans (List.prefix_append _ _)).trans
      (by rw [List.append_assoc])

/-- Every stretch of the decomposition is itself free of occurrences: the
scan replaces or counts all of them, none is skipped. -/
theorem splitOnSeq_no_occ (old l : List Nat) :
    ∀ q ∈ splitOnSeq old l, countOccs old q = 0 := by
  induction l using splitOnSeq.induct old with
  | case1 =>
    intro q hq
    rw [splitOnSeq] at hq
    simp at hq
    simp [hq, countOccs]
  | case2 c cs h ih =>
    intro q hq
    rw [splitOnSeq, if_pos h] at hq
    rcases List.mem_cons.mp hq with hq | hq
    · simp [hq, countOccs]
    · exact ih q hq
  | case3 c cs h hs => exact absurd hs (splitOnSeq_ne_nil old cs)
  | case4 c cs h p ps hs ih =>
    intro q hq
    rw [splitOnSeq, if_neg h, hs] at hq
    rcases List.mem_cons.mp hq with hq | hq
    · subst hq
      rw [countOccs]
      rw [if_neg]
      · exact ih p (by rw [hs]; exact List.mem_cons_self p ps)
      · intro hguard
        obtain ⟨hpre, hne⟩ := (guard_iff old (c :: p)).mp hguard
        apply h
        rw [guard_iff]
        refine ⟨?_, hne⟩
        have hpcs : p <+: cs := splitOnSeq_head_pref old cs hs
        cases old with
        | nil => exact absurd rfl hne
        | cons o₀ old' =>
          obtain ⟨rfl, hto⟩ := (List.cons_prefix_cons.mp hpre)
          exact List.cons_prefix_cons.mpr ⟨rfl, hto.trans hpcs⟩
    · exact ih q (by rw [hs]; exact List.mem_cons_of_mem p hq)

/-- A non-empty pattern has zero counted occurrences exactly when it does not
occur in the content at all. -/
theorem countOccs_eq_zero_iff {old : List Nat} (hold : old ≠ [])
    (l : List Nat) : countOccs old l = 0 ↔ ¬ old <:+: l := by
  induction l using countOccs.induct old with
  | case1 =>
    rw [countOccs]
    simp [List.infix_nil, hold]
  | case2 c cs h ih =>
    rw [countOccs, if_pos h]
    obtain ⟨hpre, -⟩ := (guard_iff old (c :: cs)).mp h
    simp [hpre.isInfix]
  | case3 c cs h ih =>
    rw [countOccs, if_neg h]
    rw [ih, List.infix_cons_iff]
    have hnp : ¬ old <+: c :: cs := by
      intro hp
      exact h ((guard_iff old (c :: cs)).mpr ⟨hp, hold⟩)
    tauto

/-- An occurrence in an appended string whose left part is the new bytes is
either an occurrence in the right part, or touches a byte of the new
bytes. -/
theorem occ_append_newB {old : List Nat} (hold : old ≠ []) :
    ∀ newB z : List Nat, old <:+: newB ++ z →
      old <:+: z ∨ ∃ b ∈ newB, b ∈ old := by
  intro newB
  induction newB with
  | nil => intro z h; exact Or.inl (by simpa using h)
  | cons n nt ih =>
    intro z h
    rw [List.cons_append, List.infix_cons_iff] at h
    rcases h with h | h
    · cases old with
      | nil => exact absurd rfl hold
      | cons o₀ old' =>
        obtain ⟨rfl, -⟩ := List.cons_prefix_cons.mp h
        exact Or.inr ⟨o₀, List.mem_cons_self _ _, List.mem_cons_self _ _⟩
    · rcases ih z h with h | ⟨b, hb, hbo⟩
      · exact Or.inl h
      · exact Or.inr ⟨b, List.mem_cons_of_mem n hb, hbo⟩

/-- A leading stretch of the replaced content that shares no byte with the
new bytes was already a leading stretch of the original content. -/
theorem pref_of_pref_replaceAll (old newB : List Nat) (hnb : newB ≠ [])
    (l : List Nat) :
    ∀ w : List Nat, (∀ b ∈ newB, b ∉ w) →
      w <+: replaceAll old newB l → w <+: l := by
  induction l using replaceAll.induct old newB with
  | case1 =>
    intro w _ hw
    rw [replaceAll] at hw
    simpa using hw
  | case2 c cs h ih =>
    intro w hdisj hw
    rw [replaceAll, if_pos h] at hw
    cases w with
    | nil => exact List.nil_prefix
    | cons x w' =>
      cases newB with
      | nil => exact absurd rfl hnb
      | cons n nt =>
        rw [List.cons_append] at hw
        obtain ⟨rfl, -⟩ := List.cons_prefix_cons.mp hw
        exact absurd (List.mem_cons_self x w')
          (hdisj x (List.mem_cons_self _ _))
  | case3 c cs h ih =>
    intro w hdisj hw
    rw [replaceAll, if_neg h] at hw
    cases w with
    | nil => exact List.nil_prefix
    | cons x w' =>
      obtain ⟨rfl, htl⟩ := List.cons_prefix_cons.mp hw
      have hdisj' : ∀ b ∈ newB, b ∉ w' := fun b hb hbw =>
        hdisj b hb (List.mem_cons_of_mem x hbw)
      exact List.cons_prefix_cons.mpr ⟨rfl, ih w' hdisj' htl⟩

/-- If the new bytes are non-empty and share no byte value with the old
bytes, a replace pass leaves no occurrence of the old bytes behind. -/
theorem noResidual {old newB : List Nat} (hold : old ≠ []) (hnb : newB ≠ [])
    (hdisj : ∀ b ∈ newB, b ∉ old) (l : List Nat) :
    ¬ old <:+: replaceAll old newB l := by
  induction l using replaceAll.induct old newB with
  | case1 =>
    rw [replaceAll]
    simp [List.infix_nil, hold]
  | case2 c cs h ih =>
    rw [replaceAll, if_pos h]
    intro hin
    rcases occ_append_newB hold newB _ hin with hin | ⟨b, hb, hbo⟩
    · exact ih hin
    · exact hdisj b hb hbo
  | case3 c cs h ih =>
    rw [replaceAll, if_neg h]
    intro hin
    rcases List.infix_cons_iff.mp hin with hp | hin
    · cases old with
      | nil => exact absurd rfl hold
      | cons o₀ old' =>
        obtain ⟨rfl, htl⟩ := List.cons_prefix_cons.mp hp
        have hdisj' : ∀ b ∈ newB, b ∉ old' := fun b hb hbo =>
          hdisj b hb (List.mem_cons_of_mem o₀ hbo)
        have hcs : old' <+: cs :=
          pref_of_pref_replaceAll (o₀ :: old') newB hnb cs old' hdisj' htl
        exact h ((guard_iff _ _).mpr
          ⟨List.cons_prefix_cons.mpr ⟨rfl, hcs⟩, by simp⟩)
    · exact ih hin

/-- An empty pattern is never counted. -/
theorem countOccs_nil (l : List Nat) : countOccs [] l = 0 := by
  induction l with
  | nil => rw [countOccs]
  | cons c cs ih =>
    rw [countOccs]
    simp only [List.isEmpty_nil, Bool.not_true, Bool.and_false,
      Bool.false_eq_true, if_false]
    exact ih

theorem ne_nil_of_countOccs_pos {old l : List Nat}
    (h : 0 < countOccs old l) : old ≠ [] := by
  intro he
  rw [he, countOccs_nil] at h
  exact Nat.lt_irrefl 0 h

/-- The file an index of the pass output designates is the step applied to
the file at the same index of the input. -/
theorem search_replace_get (pats : List (List GlobSeg)) (fs : List SRFile)
    (old : List Nat) (newB : Option (List Nat)) (i : Nat)
    (hi : i < fs.length)
    (hi' : i < (search_replace_in_files pats fs old newB).1.length) :
    (search_replace_in_files pats fs old newB).1.get ⟨i, hi'⟩
      = if (fs.get ⟨i, hi⟩).selected pats then srStep old newB (fs.get ⟨i, hi⟩)
        else fs.get ⟨i, hi⟩ := by
  simp [search_replace_in_files, srApply, List.get_eq_getElem]

/-- Claim C1, amended.  A file of the expanded set containing at least one
occurrence of the old bytes is rewritten by the replace pass: its content
becomes the original with every scanned occurrence replaced by the new bytes;
equivalently the original is the occurrence-free stretches joined with the
old bytes and the result is the same stretches joined with the new bytes, so
every byte outside the substituted ranges is unchanged.  The pass leaves zero
occurrences of the old bytes provided the substitution cannot re-create
them, in particular whenever the new bytes are non-empty and share no byte
value with the old bytes (without such a proviso occurrences can reappear
across substitution boundaries). -/
theorem replace_pass_on_matching_file (pats : List (List GlobSeg))
    (fs : List SRFile) (old newB : List Nat) (i : Nat) (hi : i < fs.length)
    (hi' : i < (search_replace_in_files pats fs old (some newB)).1.length)
    (hsel : (fs.get ⟨i, hi⟩).selected pats = true)
    (hocc : 0 < countOccs old (fs.get ⟨i, hi⟩).content) :
    ((search_replace_in_files pats fs old (some newB)).1.get ⟨i, hi'⟩).content
        = replaceAll old newB (fs.get ⟨i, hi⟩).content ∧
    (fs.get ⟨i, hi⟩).content
        = joinWith old (splitOnSeq old (fs.get ⟨i, hi⟩).content) ∧
    ((search_replace_in_files pats fs old (some newB)).1.get ⟨i, hi'⟩).content
        = joinWith newB (splitOnSeq old (fs.get ⟨i, hi⟩).content) ∧
    (∀ q ∈ splitOnSeq old (fs.get ⟨i, hi⟩).content, countOccs old q = 0) ∧
    (newB ≠ [] → (∀ b ∈ newB, b ∉ old) →
      countOccs old
        (((search_replace_in_files pats fs old (some newB)).1.get
          ⟨i, hi'⟩).content) = 0) := by
  have hout :
      ((search_replace_in_files pats fs old (some newB)).1.get ⟨i, hi'⟩).content
        = replaceAll old newB (fs.get ⟨i, hi⟩).content := by
    rw [search_replace_get pats fs old (some newB) i hi hi', if_pos hsel]
    simp only [srStep]
    rw [if_pos hocc]
  have hold : old ≠ [] := ne_nil_of_countOccs_pos hocc
  refine ⟨hout, (joinWith_splitOnSeq old _).symm, ?_, splitOnSeq_no_occ old _,
    ?_⟩
  · rw [hout, replaceAll_eq_joinWith]
  · intro hnb hdisj
    rw [hout]
    exact (countOccs_eq_zero_iff hold _).mpr (noResidual hold hnb hdisj _)

/-- Witness for C1's amended theorem at a concrete input. -/
theorem replace_pass_on_matching_file_witness :
    (([⟨["a"], [0, 1, 2], 0⟩] : List SRFile).get ⟨0, by simp⟩).selected
        [[GlobSeg.star]] = true ∧
    0 < countOccs [1] (([⟨["a"], [0, 1, 2], 0⟩] : List SRFile).get
        ⟨0, by simp⟩).content ∧
    (((search_replace_in_files [[GlobSeg.star]] [⟨["a"], [0, 1, 2], 0⟩] [1]
        (some [5])).1.get ⟨0, by simp [search_replace_in_files]⟩).content
        = replaceAll [1] [5]
          (([⟨["a"], [0, 1, 2], 0⟩] : List SRFile).get ⟨0, by simp⟩).content ∧
      (([⟨["a"], [0, 1, 2], 0⟩] : List SRFile).get ⟨0, by simp⟩).content
        = joinWith [1] (splitOnSeq [1]
            (([⟨["a"], [0, 1, 2], 0⟩] : List SRFile).get ⟨0, by simp⟩).content) ∧
      ((search_replace_in_files [[GlobSeg.star]] [⟨["a"], [0, 1, 2], 0⟩] [1]
        (some [5])).1.get ⟨0, by simp [search_replace_in_files]⟩).content
        = joinWith [5] (splitOnSeq [1]
            (([⟨["a"], [0, 1, 2], 0⟩] : List SRFile).get ⟨0, by simp⟩).content) ∧
      (∀ q ∈ splitOnSeq [1]
          (([⟨["a"], [0, 1, 2], 0⟩] : List SRFile).get ⟨0, by simp⟩).content,
        countOccs [1] q = 0) ∧
      (([5] : List Nat) ≠ [] → (∀ b ∈ ([5] : List Nat), b ∉ ([1] : List Nat)) →
        countOccs [1] (((search_replace_in_files [[GlobSeg.star]]
          [⟨["a"], [0, 1, 2], 0⟩] [1] (some [5])).1.get
            ⟨0, by simp [search_replace_in_files]⟩).content) = 0)) :=
  ⟨by simp [SRFile.selected, globMatch],
   by simp [countOccs],
   replace_pass_on_matching_file [[GlobSeg.star]] [⟨["a"], [0, 1, 2], 0⟩]
     [1] [5] 0 (by simp) (by simp [search_replace_in_files])
     (by simp [SRFile.selected, globMatch]) (by simp [countOccs])⟩

/-- Counterexample to C1 as stated: with old bytes 0,1 and new bytes 1, the
single file 0,0,1 contains one occurrence, yet after the replace pass its
content is 0,1, which still contains one occurrence of the old bytes, not
zero. -/
theorem replace_pass_zero_occ_counterexample :
    0 < countOccs [0, 1]
      (([⟨["a"], [0, 0, 1], 0⟩] : List SRFile).get ⟨0, by simp⟩).content ∧
    (([⟨["a"], [0, 0, 1], 0⟩] : List SRFile).get ⟨0, by simp⟩).selected
      [[GlobSeg.star]] = true ∧
    ((search_replace_in_files [[GlobSeg.star]] [⟨["a"], [0, 0, 1], 0⟩]
      [0, 1] (some [1])).1.get
        ⟨0, by simp [search_replace_in_files]⟩).content = [0, 1] ∧
    countOccs [0, 1] (((search_replace_in_files [[GlobSeg.star]]
      [⟨["a"], [0, 0, 1], 0⟩] [0, 1] (some [1])).1.get
        ⟨0, by simp [search_replace_in_files]⟩).content) = 1 := by
  refine ⟨by simp [countOccs], by simp [SRFile.selected, globMatch], ?_, ?_⟩ <;>
    simp [search_replace_in_files, srApply, srCount, srStep,
      SRFile.selected, globMatch, countOccs, replaceAll]

/-- Claim C2.  A file of the file set containing zero occurrences of the old
bytes is left untouched by a replace pass: the output file record, its
modification counter included, equals the input one. -/
theorem untouched_when_no_occurrence (pats : List (List GlobSeg))
    (fs : List SRFile) (old newB : List Nat) (i : Nat) (hi : i < fs.length)
    (hi' : i < (search_replace_in_files pats fs old (some newB)).1.length)
    (hocc : countOccs old (fs.get ⟨i, hi⟩).content = 0) :
    (search_replace_in_files pats fs old (some newB)).1.get ⟨i, hi'⟩
      = fs.get ⟨i, hi⟩ := by
  rw [search_replace_get pats fs old (some newB) i hi hi']
  by_cases hb : (fs.get ⟨i, hi⟩).selected pats = true
  · rw [if_pos hb]
    simp only [srStep]
    rw [if_neg (by simp only [List.get_eq_getElem] at hocc; simp [hocc])]
  · rw [if_neg hb]

/-- Witness for C2 at a concrete input. -/
theorem untouched_when_no_occurrence_witness :
    countOccs [7] (([⟨["a"], [0, 1, 2], 4⟩] : List SRFile).get
      ⟨0, by simp⟩).content = 0 ∧
    (search_replace_in_files [[GlobSeg.star]] [⟨["a"], [0, 1, 2], 4⟩] [7]
      (some [5])).1.get ⟨0, by simp [search_replace_in_files]⟩
      = ([⟨["a"], [0, 1, 2], 4⟩] : List SRFile).get ⟨0, by simp⟩ :=
  ⟨by simp [countOccs],
   untouched_when_no_occurrence [[GlobSeg.star]] [⟨["a"], [0, 1, 2], 4⟩]
     [7] [5] 0 (by simp) (by simp [search_replace_in_files])
     (by simp [countOccs])⟩

/-- The engine step never renames a file. -/
theorem srStep_path (old : List Nat) (newB : Option (List Nat)) (f : SRFile) :
    (srStep old newB f).path = f.path := by
  rcases newB with _ | nb
  · rfl
  · simp only [srStep]
    split <;> rfl

/-- The engine step keeps a file in, or out of, the expanded set. -/
theorem srStep_selected (pats : List (List GlobSeg)) (old : List Nat)
    (newB : Option (List Nat)) (f : SRFile) :
    (srStep old newB f).selected pats = f.selected pats := by
  unfold SRFile.selected
  rw [srStep_path]

/-- A replace step on a file free of occurrences leaves the file record as
is. -/
theorem srStep_id_of_no_occ {old : List Nat} (newB : List Nat) {f : SRFile}
    (h : countOccs old f.content = 0) : srStep old (some newB) f = f := by
  simp only [srStep]
  rw [if_neg (by omega)]

/-- After a replace step with non-empty new bytes sharing no byte value with
the old bytes, the file holds no occurrence of the old bytes. -/
theorem srStep_count_zero {old newB : List Nat} (hold : old ≠ [])
    (hnb : newB ≠ []) (hdisj : ∀ b ∈ newB, b ∉ old) (f : SRFile) :
    countOccs old (srStep old (some newB) f).content = 0 := by
  simp only [srStep]
  by_cases hc : countOccs old f.content > 0
  · rw [if_pos hc]
    exact (countOccs_eq_zero_iff hold _).mpr (noResidual hold hnb hdisj _)
  · rw [if_neg hc]
    omega

theorem srApply_idem {old newB : List Nat} (pats : List (List GlobSeg))
    (hold : old ≠ []) (hnb : newB ≠ []) (hdisj : ∀ b ∈ newB, b ∉ old)
    (f : SRFile) :
    srApply pats old (some newB) (srApply pats old (some newB) f)
      = srApply pats old (some newB) f := by
  unfold srApply
  by_cases hb : f.selected pats = true
  · rw [if_pos hb, if_pos (by rw [srStep_selected]; exact hb)]
    exact srStep_id_of_no_occ newB (srStep_count_zero hold hnb hdisj f)
  · rw [if_neg hb, if_neg hb]

theorem srCount_srApply_zero {old newB : List Nat} (pats : List (List GlobSeg))
    (hold : old ≠ []) (hnb : newB ≠ []) (hdisj : ∀ b ∈ newB, b ∉ old)
    (f : SRFile) :
    srCount pats old (srApply pats old (some newB) f) = 0 := by
  unfold srCount srApply
  by_cases hb : f.selected pats = true
  · rw [if_pos hb, if_pos (by rw [srStep_selected]; exact hb)]
    exact srStep_count_zero hold hnb hdisj f
  · rw [if_neg hb, if_neg hb]

/-- Claim C3, amended.  Provided the substitution cannot re-create the old
bytes (non-empty old bytes, non-empty new bytes sharing no byte value with
the old bytes), a second replace pass with the same arguments on the output
of a first one finds zero matches and changes no file (without such a proviso
a second pass can find and rewrite occurrences the first one created, see the
counterexample). -/
theorem replace_pass_idempotent (pats : List (List GlobSeg))
    (fs : List SRFile) (old newB : List Nat) (hold : old ≠ [])
    (hnb : newB ≠ []) (hdisj : ∀ b ∈ newB, b ∉ old) :
    search_replace_in_files pats
        (search_replace_in_files pats fs old (some newB)).1 old (some newB)
      = ((search_replace_in_files pats fs old (some newB)).1, 0) := by
  unfold search_replace_in_files
  simp only [Prod.mk.injEq]
  constructor
  · rw [List.map_map]
    exact List.map_congr_left (fun f _ => srApply_idem pats hold hnb hdisj f)
  · rw [List.map_map]
    apply List.sum_eq_zero
    intro x hx
    obtain ⟨f, -, rfl⟩ := List.mem_map.mp hx
    exact srCount_srApply_zero pats hold hnb hdisj f

/-- Witness for C3's amended theorem at a concrete input. -/
theorem replace_pass_idempotent_witness :
    ([1] : List Nat) ≠ [] ∧ ([5] : List Nat) ≠ [] ∧
    (∀ b ∈ ([5] : List Nat), b ∉ ([1] : List Nat)) ∧
    search_replace_in_files [[GlobSeg.star]]
        (search_replace_in_files [[GlobSeg.star]] [⟨["a"], [0, 1, 2], 0⟩]
          [1] (some [5])).1 [1] (some [5])
      = ((search_replace_in_files [[GlobSeg.star]] [⟨["a"], [0, 1, 2], 0⟩]
          [1] (some [5])).1, 0) :=
  ⟨by simp, by simp, by decide,
   replace_pass_idempotent [[GlobSeg.star]] [⟨["a"], [0, 1, 2], 0⟩] [1] [5]
     (by simp) (by simp) (by decide)⟩

/-- Counterexample to C3 as stated: with old bytes 0,1 and new bytes 1, a
first replace pass turns the single file 0,0,1 into 0,1; a second pass with
the same arguments finds one further match, not zero, and rewrites the file
again, to content 1. -/
theorem replace_pass_idempotent_counterexample :
    (search_replace_in_files [[GlobSeg.star]] [⟨["a"], [0, 0, 1], 0⟩]
        [0, 1] (some [1])).1 = [⟨["a"], [0, 1], 1⟩] ∧
    search_replace_in_files [[GlobSeg.star]]
        (search_replace_in_files [[GlobSeg.star]] [⟨["a"], [0, 0, 1], 0⟩]
          [0, 1] (some [1])).1 [0, 1] (some [1])
      = ([⟨["a"], [1], 2⟩], 1) := by
  constructor <;>
    simp [search_replace_in_files, srApply, srCount, srStep,
      SRFile.selected, globMatch, countOccs, replaceAll]

/-- Claim C4.  A scan-only pass mutates no file: it returns the filesystem
unchanged, and its returned total is the number of occurrences summed over
the files of the expanded set, where the occurrence count of a file is the
number of separators in its decomposition into occurrence-free stretches
joined by the old bytes. -/
theorem scan_only_pass (pats : List (List GlobSeg)) (fs : List SRFile)
    (old : List Nat) :
    search_replace_in_files pats fs old none
      = (fs, (fs.map (fun f =>
          if f.selected pats then numOccsSpec old f.content else 0)).sum) ∧
    ∀ f ∈ fs, f.content = joinWith old (splitOnSeq old f.content) ∧
      ∀ q ∈ splitOnSeq old f.content, countOccs old q = 0 := by
  refine ⟨?_, fun f _ => ⟨(joinWith_splitOnSeq old f.content).symm,
    splitOnSeq_no_occ old f.content⟩⟩
  unfold search_replace_in_files
  simp only [Prod.mk.injEq]
  constructor
  · have h1 : srApply pats old none = fun f => f := by
      funext f
      unfold srApply srStep
      exact ite_self f
    rw [h1, List.map_id']
  · apply congrArg
    apply List.map_congr_left
    intro f _
    unfold srCount
    rw [countOccs_eq_numOccsSpec]

/-- An externally observable action of the builder: an external command
invocation, a cache-directory removal, or one of the operator messages the
claims talk about. -/
inductive Effect where
  | runCmd (args : List String)
  | removedPycache (path : String)
  | warnLeftover (n : Nat)
  | confirmClean
  | successReport
deriving DecidableEq

/-- The raised conditions of build_python_env: the already-exists condition
on the target directory, the not-found condition on the install root, and
the not-found condition on the pip entry point. -/
inductive BuildError where
  | targetExists
  | installRootMissing
  | pipMissing
deriving DecidableEq

/-- The path of a dylib relative to the python root, modelling
Path(dylib_path).relative_to(python_root) for a path below the root. -/
def relPathStr (root p : String) : String :=
  if (root ++ "/").isPrefixOf p then p.drop (root.length + 1) else p

/-- Modelled from build.py (update_macos_dylib_ids): for every dylib path the
recursive lib glob found, one invocation of install_name_tool with the -id
flag, the new identity made of the executable-relative placeholder plus the
path relative to the python root, and the dylib path. -/
def update_macos_dylib_ids (pythonRoot : String) (dylibPaths : List String) :
    List Effect :=
  dylibPaths.map (fun d =>
    Effect.runCmd ["install_name_tool", "-id",
      "@executable_path/../" ++ relPathStr pythonRoot d, d])

/-- The two replace-mode glob patterns of replace_absolute_paths, modelling
the strings python_root/bin/* and python_root/lib/**/*.py. -/
def textGlobPats (pythonRoot : List String) : List (List GlobSeg) :=
  [pythonRoot.map GlobSeg.lit ++ [GlobSeg.lit "bin", GlobSeg.star],
   pythonRoot.map GlobSeg.lit ++
     [GlobSeg.lit "lib", GlobSeg.deep, GlobSeg.starSuffix ".py"]]

/-- The verification-scan glob pattern of replace_absolute_paths, modelling
the string python_root/**/*. -/
def allFilesPat (pythonRoot : List String) : List (List GlobSeg) :=
  [pythonRoot.map GlobSeg.lit ++ [GlobSeg.deep, GlobSeg.star]]

/-- Modelled from build.py (replace_absolute_paths): a replace pass over the
bin and lib .py globs, then a scan-only pass over the whole tree for
leftover occurrences, warning if any remain and confirming otherwise.
Returns the filesystem after the replace pass, the leftover count, and the
emitted report effects. -/
def replace_absolute_paths (pythonRoot : List String) (oldB newB : List Nat)
    (fs : List SRFile) : List SRFile × Nat × List Effect :=
  let fs1 := (search_replace_in_files (textGlobPats pythonRoot) fs oldB
    (some newB)).1
  let leftover := (search_replace_in_files (allFilesPat pythonRoot) fs1 oldB
    none).2
  (fs1, leftover,
   if leftover > 0 then [Effect.warnLeftover leftover] else [Effect.confirmClean])

/-- The world the builder runs against: everything build.py learns from the
filesystem or from sys.platform.  The byte strings oldBytes and newBytes
stand for the UTF-8 encodings of str(target_absolute) and str(target_dir);
fs is the install tree at the point of the path-replacement step, with paths
as component lists; installRootComps is install_root as components. -/
structure BuildEnv where
  targetExists : Bool
  targetAbsStr : String
  installRootMatches : List String
  pipExists : Bool
  isDarwin : Bool
  dylibPaths : List String
  pycacheRemoved : List String
  installRootComps : List String
  oldBytes : List Nat
  newBytes : List Nat
  fs : List SRFile

/-- Modelled from build.py (build_python_env): aborts on an existing target
without force; runs the interpreter install; locates the install root from
the glob matches, failing when there are none; checks the pip entry point;
runs the package install against the first glob match; removes the pycache
directories; on darwin patches the dylib identities; replaces the absolute
paths and scans for leftovers; reports success.  Returns the effects
performed up to completion or up to the raised condition, and the raised
condition if any. -/
def build_python_env (env : BuildEnv) (packageList : List String)
    (pythonVersion : String) (force : Bool) :
    List Effect × Option BuildError :=
  if env.targetExists && !force then
    ([], some BuildError.targetExists)
  else
    let e1 : List Effect := [Effect.runCmd ["uv", "python", "install",
      "--managed-python", "--install-dir", env.targetAbsStr, pythonVersion]]
    match env.installRootMatches with
    | [] => (e1, some BuildError.installRootMissing)
    | installRoot :: _ =>
      if !env.pipExists then
        (e1, some BuildError.pipMissing)
      else
        let e2 := e1 ++ [Effect.runCmd (["uv", "pip", "install"] ++
          packageList ++ ["--python", installRoot, "--break-system-packages"])]
        let e3 := e2 ++ env.pycacheRemoved.map Effect.removedPycache
        let e4 := e3 ++ (if env.isDarwin then
          update_macos_dylib_ids installRoot env.dylibPaths else [])
        let rep := replace_absolute_paths env.installRootComps env.oldBytes
          env.newBytes env.fs
        (e4 ++ rep.2.2 ++ [Effect.successReport], none)

/-- Claim C5.  When the target directory exists and force is false the build
raises the already-exists condition having performed no effect at all: no
external tool was invoked and nothing on the filesystem was touched. -/
theorem build_fails_fast_when_target_exists (env : BuildEnv)
    (packageList : List String) (pythonVersion : String)
    (hex : env.targetExists = true) :
    build_python_env env packageList pythonVersion false
      = ([], some BuildError.targetExists) := by
  unfold build_python_env
  rw [hex]
  rfl

/-- Witness for C5 at a concrete environment. -/
theorem build_fails_fast_when_target_exists_witness :
    (BuildEnv.mk true "/tmp/t" [] false false [] [] [] [] [] []).targetExists
        = true ∧
    build_python_env (BuildEnv.mk true "/tmp/t" [] false false [] [] [] [] [] [])
        ["cowsay"] "3.13" false
      = ([], some BuildError.targetExists) :=
  ⟨rfl, build_fails_fast_when_target_exists _ ["cowsay"] "3.13" rfl⟩

/-- The guard of the already-exists check is false when the precondition
failure does not apply. -/
theorem guard_false_of_not_fail {env : BuildEnv} {force : Bool}
    (h : ¬(env.targetExists = true ∧ force = false)) :
    ¬((env.targetExists && !force) = true) := by
  simp only [Bool.and_eq_true, Bool.not_eq_true']
  exact h

/-- Claim C6.  After the interpreter-install step: with zero glob matches for
the version-prefixed install root, the build raises the not-found condition
and its whole trace is the single interpreter-install command, so the
package-install command was never invoked; with at least one match, the
first match is the install root the package-install command is run
against. -/
theorem install_root_discovery (env : BuildEnv) (packageList : List String)
    (pythonVersion : String) (force : Bool)
    (hru : ¬(env.targetExists = true ∧ force = false)) :
    (env.installRootMatches = [] →
      build_python_env env packageList pythonVersion force
        = ([Effect.runCmd ["uv", "python", "install", "--managed-python",
            "--install-dir", env.targetAbsStr, pythonVersion]],
           some BuildError.installRootMissing)) ∧
    (∀ r rs, env.installRootMatches = r :: rs → env.pipExists = true →
      Effect.runCmd (["uv", "pip", "install"] ++ packageList ++
          ["--python", r, "--break-system-packages"])
        ∈ (build_python_env env packageList pythonVersion force).1) := by
  constructor
  · intro hnil
    unfold build_python_env
    rw [if_neg (guard_false_of_not_fail hru), hnil]
  · intro r rs hmatch hpip
    unfold build_python_env
    rw [if_neg (guard_false_of_not_fail hru), hmatch]
    simp only [hpip, Bool.not_true, Bool.false_eq_true, if_false]
    simp [List.mem_append]

/-- Witness for C6 at a concrete environment: the empty-matches case and the
first-match case each instantiated. -/
theorem install_root_discovery_witness :
    (¬((BuildEnv.mk false "/tmp/t" [] true false [] [] [] [] [] []).targetExists
        = true ∧ false = false) ∧
      ((BuildEnv.mk false "/tmp/t" [] true false [] [] [] [] [] []
          ).installRootMatches = [] →
        build_python_env (BuildEnv.mk false "/tmp/t" [] true false [] [] [] [] [] [])
            ["cowsay"] "3.13" false
          = ([Effect.runCmd ["uv", "python", "install", "--managed-python",
              "--install-dir", "/tmp/t", "3.13"]],
             some BuildError.installRootMissing))) ∧
    (¬((BuildEnv.mk false "/tmp/t" ["/tmp/t/cpython-3.13.2"] true false
          [] [] [] [] [] []).targetExists = true ∧ false = false) ∧
      (Effect.runCmd (["uv", "pip", "install"] ++ ["cowsay"] ++
          ["--python", "/tmp/t/cpython-3.13.2", "--break-system-packages"])
        ∈ (build_python_env (BuildEnv.mk false "/tmp/t"
            ["/tmp/t/cpython-3.13.2"] true false [] [] [] [] [] [])
            ["cowsay"] "3.13" false).1)) :=
  ⟨⟨by simp,
    (install_root_discovery (BuildEnv.mk false "/tmp/t" [] true false
      [] [] [] [] [] []) ["cowsay"] "3.13" false (by simp)).1⟩,
   ⟨by simp,
    (install_root_discovery (BuildEnv.mk false "/tmp/t"
        ["/tmp/t/cpython-3.13.2"] true false [] [] [] [] [] [])
        ["cowsay"] "3.13" false (by simp)).2
      "/tmp/t/cpython-3.13.2" [] rfl rfl⟩⟩

/-- Claim C7.  Whenever the build reaches the path-replacement step, it runs
the scan-only verification pass after the replace pass; a positive leftover
count yields a warning while the build still completes without a raised
condition and emits the success report, and a zero count yields the
confirmation instead. -/
theorem verification_scan_reports (env : BuildEnv) (packageList : List String)
    (pythonVersion : String) (force : Bool)
    (hru : ¬(env.targetExists = true ∧ force = false)) (r : String)
    (rs : List String) (hmatch : env.installRootMatches = r :: rs)
    (hpip : env.pipExists = true) :
    (build_python_env env packageList pythonVersion force).2 = none ∧
    Effect.successReport ∈ (build_python_env env packageList pythonVersion force).1 ∧
    (0 < (replace_absolute_paths env.installRootComps env.oldBytes
        env.newBytes env.fs).2.1 →
      Effect.warnLeftover ((replace_absolute_paths env.installRootComps
          env.oldBytes env.newBytes env.fs).2.1)
          ∈ (build_python_env env packageList pythonVersion force).1 ∧
        Effect.confirmClean
          ∉ (build_python_env env packageList pythonVersion force).1) ∧
    ((replace_absolute_paths env.installRootComps env.oldBytes env.newBytes
        env.fs).2.1 = 0 →
      Effect.confirmClean
          ∈ (build_python_env env packageList pythonVersion force).1 ∧
        ∀ k, Effect.warnLeftover k
          ∉ (build_python_env env packageList pythonVersion force).1) := by
  unfold build_python_env
  rw [if_neg (guard_false_of_not_fail hru), hmatch]
  simp only [hpip, Bool.not_true, Bool.false_eq_true, if_false]
  refine ⟨?_, ?_, ?_, ?_⟩
  · trivial
  · simp
  · intro hpos
    unfold replace_absolute_paths at hpos ⊢
    simp only at hpos ⊢
    rw [if_pos hpos]
    constructor
    · simp
    · simp [List.mem_append, update_macos_dylib_ids, List.mem_map]
  · intro hzero
    unfold replace_absolute_paths at hzero ⊢
    simp only at hzero ⊢
    rw [hzero]
    simp only [Nat.lt_irrefl, if_false]
    constructor
    · simp
    · intro k
      simp [List.mem_append, update_macos_dylib_ids, List.mem_map]

/-- Witness for C7 at a concrete environment with one leftover occurrence in
a binary file outside the replace globs. -/
theorem verification_scan_reports_witness :
    (¬((BuildEnv.mk false "/tmp/t" ["/tmp/t/cpython-3.13.2"] true false [] []
        ["t", "cpython-3.13.2"] [9] [7]
        [⟨["t", "cpython-3.13.2", "lib", "x.so"], [9], 0⟩]).targetExists
          = true ∧ false = false)) ∧
    (BuildEnv.mk false "/tmp/t" ["/tmp/t/cpython-3.13.2"] true false [] []
        ["t", "cpython-3.13.2"] [9] [7]
        [⟨["t", "cpython-3.13.2", "lib", "x.so"], [9], 0⟩]).installRootMatches
      = "/tmp/t/cpython-3.13.2" :: [] ∧
    ((build_python_env (BuildEnv.mk false "/tmp/t" ["/tmp/t/cpython-3.13.2"]
        true false [] [] ["t", "cpython-3.13.2"] [9] [7]
        [⟨["t", "cpython-3.13.2", "lib", "x.so"], [9], 0⟩])
        ["cowsay"] "3.13" false).2 = none ∧
      Effect.successReport ∈ (build_python_env (BuildEnv.mk false "/tmp/t"
        ["/tmp/t/cpython-3.13.2"] true false [] [] ["t", "cpython-3.13.2"]
        [9] [7] [⟨["t", "cpython-3.13.2", "lib", "x.so"], [9], 0⟩])
        ["cowsay"] "3.13" false).1) :=
  ⟨by simp, rfl,
   ⟨(verification_scan_reports _ ["cowsay"] "3.13" false (by simp)
      "/tmp/t/cpython-3.13.2" [] rfl rfl).1,
    (verification_scan_reports _ ["cowsay"] "3.13" false (by simp)
      "/tmp/t/cpython-3.13.2" [] rfl rfl).2.1⟩⟩

/-- Claim C8.  For every dylib file the recursive lib glob produced, the
builder invokes the platform patching tool exactly once for that file, with
the rewrite-identity flag, the new identity made of the
executable-placeholder-one-level-up anchor followed by the file's path
relative to the install root, and the file's path. -/
theorem dylib_id_rewritten_once (pythonRoot : String)
    (dylibPaths : List String) (hnd : dylibPaths.Nodup) (d : String)
    (hd : d ∈ dylibPaths) :
    (update_macos_dylib_ids pythonRoot dylibPaths).count
        (Effect.runCmd ["install_name_tool", "-id",
          "@executable_path/../" ++ relPathStr pythonRoot d, d]) = 1 := by
  unfold update_macos_dylib_ids
  have hinj : Function.Injective (fun d : String =>
      Effect.runCmd ["install_name_tool", "-id",
        "@executable_path/../" ++ relPathStr pythonRoot d, d]) := by
    intro a b hab
    have h2 : "@executable_path/../" ++ relPathStr pythonRoot a
        = "@executable_path/../" ++ relPathStr pythonRoot b ∧ a = b := by
      simpa using hab
    exact h2.2
  rw [List.count_map_of_injective _ _ hinj]
  exact List.count_eq_one_of_mem hnd hd

/-- Witness for C8 at a concrete dylib list. -/
theorem dylib_id_rewritten_once_witness :
    (["/r/lib/a.dylib"] : List String).Nodup ∧
    "/r/lib/a.dylib" ∈ (["/r/lib/a.dylib"] : List String) ∧
    (update_macos_dylib_ids "/r" ["/r/lib/a.dylib"]).count
        (Effect.runCmd ["install_name_tool", "-id",
          "@executable_path/../" ++ relPathStr "/r" "/r/lib/a.dylib",
          "/r/lib/a.dylib"]) = 1 :=
  ⟨List.nodup_singleton _, List.mem_singleton.mpr rfl,
   dylib_id_rewritten_once "/r" ["/r/lib/a.dylib"] (List.nodup_singleton _)
     "/r/lib/a.dylib" (List.mem_singleton.mpr rfl)⟩

/-- The deep-then-star pattern matches every non-empty component list. -/
theorem globMatch_deep_star (q : List String) (hq : q ≠ []) :
    globMatch [GlobSeg.deep, GlobSeg.star] q = true := by
  induction q with
  | nil => exact absurd rfl hq
  | cons x xs ih =>
    cases xs with
    | nil => simp [globMatch]
    | cons y ys =>
      rw [globMatch]
      simp only [Bool.or_eq_true]
      exact Or.inr (ih (by simp))

/-- The verification glob of replace_absolute_paths matches every path
strictly below the python root. -/
theorem globMatch_all_under (root q : List String) (hq : q ≠ []) :
    globMatch (root.map GlobSeg.lit ++ [GlobSeg.deep, GlobSeg.star])
      (root ++ q) = true := by
  induction root with
  | nil => simpa using globMatch_deep_star q hq
  | cons r rt ih =>
    simp only [List.map_cons, List.cons_append]
    rw [globMatch]
    simp [ih]

/-- Claim C10.  The replace pass of replace_absolute_paths is scoped to the
bin star and lib recursive .py globs while the verification scan covers the
whole tree below the install root: a file outside the two replace patterns
is left untouched by the replace step, byte for byte and metadata included;
it belongs to the scan's file set whenever it lies below the root; and each
occurrence of the old path bytes it holds is counted by the scan (the scan
total dominates its occurrence count), never rewritten. -/
theorem replace_scope_vs_scan (pythonRoot : List String)
    (oldB newB : List Nat) (fs : List SRFile) (i : Nat) (hi : i < fs.length)
    (hi' : i < (replace_absolute_paths pythonRoot oldB newB fs).1.length)
    (hout : (fs.get ⟨i, hi⟩).selected (textGlobPats pythonRoot) = false) :
    (replace_absolute_paths pythonRoot oldB newB fs).1.get ⟨i, hi'⟩
        = fs.get ⟨i, hi⟩ ∧
    (∀ q, (fs.get ⟨i, hi⟩).path = pythonRoot ++ q → q ≠ [] →
      (fs.get ⟨i, hi⟩).selected (allFilesPat pythonRoot) = true) ∧
    ((fs.get ⟨i, hi⟩).selected (allFilesPat pythonRoot) = true →
      countOccs oldB (fs.get ⟨i, hi⟩).content
        ≤ (replace_absolute_paths pythonRoot oldB newB fs).2.1) := by
  have hunch :
      (search_replace_in_files (textGlobPats pythonRoot) fs oldB
        (some newB)).1.get ⟨i, hi'⟩ = fs.get ⟨i, hi⟩ := by
    have h0 := search_replace_get (textGlobPats pythonRoot) fs oldB
      (some newB) i hi hi'
    rw [if_neg (by rw [hout]; exact Bool.false_ne_true)] at h0
    exact h0
  refine ⟨hunch, ?_, ?_⟩
  · intro q hpath hq
    unfold SRFile.selected allFilesPat
    rw [hpath]
    simp [globMatch_all_under pythonRoot q hq]
  · intro hselAll
    have hmem : fs.get ⟨i, hi⟩
        ∈ (search_replace_in_files (textGlobPats pythonRoot) fs oldB
            (some newB)).1 := by
      rw [← hunch]
      exact List.get_mem _ _ _
    have hmem2 : srCount (allFilesPat pythonRoot) oldB (fs.get ⟨i, hi⟩)
        ∈ ((search_replace_in_files (textGlobPats pythonRoot) fs oldB
            (some newB)).1.map (srCount (allFilesPat pythonRoot) oldB)) :=
      List.mem_map_of_mem _ hmem
    have hcnt : srCount (allFilesPat pythonRoot) oldB (fs.get ⟨i, hi⟩)
        = countOccs oldB (fs.get ⟨i, hi⟩).content := by
      unfold srCount
      rw [if_pos hselAll]
    calc countOccs oldB (fs.get ⟨i, hi⟩).content
        = srCount (allFilesPat pythonRoot) oldB (fs.get ⟨i, hi⟩) := hcnt.symm
      _ ≤ ((search_replace_in_files (textGlobPats pythonRoot) fs oldB
            (some newB)).1.map (srCount (allFilesPat pythonRoot) oldB)).sum :=
          List.single_le_sum (fun x _ => Nat.zero_le x) _ hmem2
      _ = (replace_absolute_paths pythonRoot oldB newB fs).2.1 := rfl

/-- Witness for C10 at a concrete tree: a non-.py text file under lib
holding one occurrence of the old path bytes. -/
theorem replace_scope_vs_scan_witness :
    (([⟨["t", "lib", "notes.txt"], [9, 9], 3⟩] : List SRFile).get
        ⟨0, by simp⟩).selected (textGlobPats ["t"]) = false ∧
    ((replace_absolute_paths ["t"] [9] [7]
        [⟨["t", "lib", "notes.txt"], [9, 9], 3⟩]).1.get
          ⟨0, by simp [replace_absolute_paths, search_replace_in_files]⟩
        = ([⟨["t", "lib", "notes.txt"], [9, 9], 3⟩] : List SRFile).get
            ⟨0, by simp⟩ ∧
      (∀ q, (([⟨["t", "lib", "notes.txt"], [9, 9], 3⟩] : List SRFile).get
          ⟨0, by simp⟩).path = ["t"] ++ q → q ≠ [] →
        (([⟨["t", "lib", "notes.txt"], [9, 9], 3⟩] : List SRFile).get
          ⟨0, by simp⟩).selected (allFilesPat ["t"]) = true) ∧
      ((([⟨["t", "lib", "notes.txt"], [9, 9], 3⟩] : List SRFile).get
          ⟨0, by simp⟩).selected (allFilesPat ["t"]) = true →
        countOccs [9] (([⟨["t", "lib", "notes.txt"], [9, 9], 3⟩] :
            List SRFile).get ⟨0, by simp⟩).content
          ≤ (replace_absolute_paths ["t"] [9] [7]
              [⟨["t", "lib", "notes.txt"], [9, 9], 3⟩]).2.1)) :=
  ⟨by simp +decide [SRFile.selected, textGlobPats, globMatch],
   replace_scope_vs_scan ["t"] [9] [7]
     [⟨["t", "lib", "notes.txt"], [9, 9], 3⟩] 0 (by simp)
     (by simp [replace_absolute_paths, search_replace_in_files])
     (by simp +decide [SRFile.selected, textGlobPats, globMatch])⟩

/-- A directory tree: the filesystem clean_pycache_dirs walks. -/
inductive FTree where
  | file (name : String)
  | dir (name : String) (children : List FTree)

def FTree.name : FTree → String
  | .file n => n
  | .dir n _ => n

def FTree.isDirB : FTree → Bool
  | .file _ => false
  | .dir _ _ => true

/-- Whether an entry is a directory bearing the reserved cache name. -/
def isPycacheDir : FTree → Bool
  | .file _ => false
  | .dir n _ => n == "__pycache__"

mutual

/-- Modelled from build.py (clean_pycache_dirs): the os.walk visits every
directory top-down and removes, with its full contents, each child directory
named __pycache__ (the walk never descends into a directory it removed, and
directories nested inside a removed one are gone with it); the net effect on
the tree is this recursive filter. -/
def clean_pycache_dirs : FTree → FTree
  | .file n => .file n
  | .dir n cs => .dir n (cleanChildren cs)

def cleanChildren : List FTree → List FTree
  | [] => []
  | t :: ts =>
    if isPycacheDir t then cleanChildren ts
    else clean_pycache_dirs t :: cleanChildren ts

end

mutual

/-- Whether a reserved-name cache directory occurs strictly below the given
node. -/
def anyPycacheBelow : FTree → Bool
  | .file _ => false
  | .dir _ cs => anyPycacheChildren cs

def anyPycacheChildren : List FTree → Bool
  | [] => false
  | t :: ts => isPycacheDir t || anyPycacheBelow t || anyPycacheChildren ts

end

/-- Whether none of the entries bears the given name. -/
def nameFree : List FTree → String → Bool
  | [], _ => true
  | t :: ts, n => !(t.name == n) && nameFree ts n

/-- Sibling names are distinct at this level. -/
def namesNodup : List FTree → Bool
  | [] => true
  | t :: ts => nameFree ts t.name && namesNodup ts

mutual

/-- A well-formed directory tree: sibling names are distinct everywhere, as
they are on a real filesystem. -/
def wfTree : FTree → Bool
  | .file _ => true
  | .dir _ cs => namesNodup cs && wfChildren cs

def wfChildren : List FTree → Bool
  | [] => true
  | t :: ts => wfTree t && wfChildren ts

end

/-- The entry of the given name, as a directory listing resolves one path
component. -/
def findChild : List FTree → String → Option FTree
  | [], _ => none
  | t :: ts, n => if t.name == n then some t else findChild ts n

/-- Resolves a path below a node: some kind (true for a directory, false for
a file) when the path names a node of the tree, none otherwise. -/
def nodeKindAt : FTree → List String → Option Bool
  | t, [] => some t.isDirB
  | .file _, _ :: _ => none
  | .dir _ cs, n :: rest =>
    match findChild cs n with
    | none => none
    | some c => nodeKindAt c rest
termination_by _ p => p.length

/-- Whether resolving the path passes through, or ends at, a directory named
with the reserved cache name. -/
def walkCrossesPyc : FTree → List String → Bool
  | _, [] => false
  | .file _, _ :: _ => false
  | .dir _ cs, n :: rest =>
    match findChild cs n with
    | none => false
    | some c => isPycacheDir c || walkCrossesPyc c rest
termination_by _ p => p.length

theorem clean_name (t : FTree) : (clean_pycache_dirs t).name = t.name := by
  cases t <;> rfl

theorem clean_isDirB (t : FTree) :
    (clean_pycache_dirs t).isDirB = t.isDirB := by
  cases t <;> rfl

theorem clean_isPycacheDir (t : FTree) :
    isPycacheDir (clean_pycache_dirs t) = isPycacheDir t := by
  cases t <;> rfl

mutual

theorem clean_no_pycache (t : FTree) :
    anyPycacheBelow (clean_pycache_dirs t) = false := by
  cases t with
  | file n => rfl
  | dir n cs =>
    show anyPycacheChildren (cleanChildren cs) = false
    exact cleanChildren_no_pycache cs

theorem cleanChildren_no_pycache (cs : List FTree) :
    anyPycacheChildren (cleanChildren cs) = false := by
  cases cs with
  | nil => rfl
  | cons t ts =>
    rw [cleanChildren]
    by_cases hp : isPycacheDir t = true
    · rw [if_pos hp]
      exact cleanChildren_no_pycache ts
    · rw [if_neg hp]
      rw [anyPycacheChildren]
      rw [clean_isPycacheDir, clean_no_pycache t, cleanChildren_no_pycache ts]
      simp only [Bool.or_false]
      simp only [Bool.not_eq_true] at hp
      rw [hp]

end

theorem findChild_none_of_nameFree {cs : List FTree} {n : String}
    (h : nameFree cs n = true) : findChild cs n = none := by
  induction cs with
  | nil => rfl
  | cons t ts ih =>
    rw [nameFree, Bool.and_eq_true, Bool.not_eq_true'] at h
    rw [findChild, if_neg (by rw [h.1]; exact Bool.false_ne_true)]
    exact ih h.2

theorem findChild_clean_none {cs : List FTree} {n : String}
    (h : findChild cs n = none) :
    findChild (cleanChildren cs) n = none := by
  induction cs with
  | nil => rfl
  | cons t ts ih =>
    rw [findChild] at h
    by_cases he : (t.name == n) = true
    · rw [if_pos he] at h
      exact absurd h (by simp)
    · rw [if_neg he] at h
      rw [cleanChildren]
      by_cases hp : isPycacheDir t = true
      · rw [if_pos hp]
        exact ih h
      · rw [if_neg hp, findChild]
        rw [if_neg (by rw [clean_name]; exact he)]
        exact ih h

/-- Resolving one component after the cleanup: an existing child is gone
exactly when it was a reserved-name cache directory, and is otherwise its own
cleanup. -/
theorem findChild_clean {cs : List FTree} (hnd : namesNodup cs = true)
    (n : String) :
    findChild (cleanChildren cs) n =
      match findChild cs n with
      | none => none
      | some c => if isPycacheDir c then none
                  else some (clean_pycache_dirs c) := by
  induction cs with
  | nil => rfl
  | cons t ts ih =>
    rw [namesNodup, Bool.and_eq_true] at hnd
    rw [cleanChildren, findChild]
    by_cases he : (t.name == n) = true
    · rw [if_pos he]
      by_cases hp : isPycacheDir t = true
      · rw [if_pos hp]
        simp only [hp, if_true]
        have hn : n = t.name := (beq_iff_eq.mp he).symm
        exact findChild_clean_none
          (findChild_none_of_nameFree (hn ▸ hnd.1))
      · rw [if_neg hp, findChild, if_pos (by rw [clean_name]; exact he)]
        simp only [Bool.not_eq_true] at hp
        simp [hp]
    · rw [if_neg he]
      by_cases hp : isPycacheDir t = true
      · rw [if_pos hp]
        exact ih hnd.2
      · rw [if_neg hp, findChild, if_neg (by rw [clean_name]; exact he)]
        exact ih hnd.2

theorem wfTree_dir {n : String} {cs : List FTree}
    (h : wfTree (.dir n cs) = true) :
    namesNodup cs = true ∧ wfChildren cs = true := by
  rw [wfTree, Bool.and_eq_true] at h
  exact h

theorem wfChildren_mem {cs : List FTree} {c : FTree}
    (h : wfChildren cs = true) (hc : c ∈ cs) : wfTree c = true := by
  induction cs with
  | nil => exact absurd hc (List.not_mem_nil c)
  | cons t ts ih =>
    rw [wfChildren, Bool.and_eq_true] at h
    rcases List.mem_cons.mp hc with rfl | hc
    · exact h.1
    · exact ih h.2 hc

theorem findChild_mem {cs : List FTree} {n : String} {c : FTree}
    (h : findChild cs n = some c) : c ∈ cs := by
  induction cs with
  | nil => exact absurd h (by rw [findChild]; simp)
  | cons t ts ih =>
    rw [findChild] at h
    by_cases he : (t.name == n) = true
    · rw [if_pos he] at h
      exact (Option.some.inj h) ▸ List.mem_cons_self t ts
    · rw [if_neg he] at h
      exact List.mem_cons_of_mem t (ih h)

/-- Path resolution after the cleanup: a path crossing (or ending at) a
reserved-name cache directory resolves to nothing, every other path resolves
exactly as before. -/
theorem clean_nodeKindAt (p : List String) : ∀ t : FTree,
    wfTree t = true →
    nodeKindAt (clean_pycache_dirs t) p
      = if walkCrossesPyc t p = true then none else nodeKindAt t p := by
  induction p with
  | nil =>
    intro t _
    rw [walkCrossesPyc]
    simp only [Bool.false_eq_true, if_false]
    rw [nodeKindAt, nodeKindAt, clean_isDirB]
  | cons n rest ih =>
    intro t hwf
    cases t with
    | file m =>
      simp [clean_pycache_dirs, nodeKindAt, walkCrossesPyc]
    | dir m cs =>
      obtain ⟨hnd, hch⟩ := wfTree_dir hwf
      have hsc : clean_pycache_dirs (FTree.dir m cs)
          = FTree.dir m (cleanChildren cs) := rfl
      rw [hsc, nodeKindAt, walkCrossesPyc, findChild_clean hnd n]
      cases hf : findChild cs n with
      | none => simp [nodeKindAt, hf]
      | some c =>
        by_cases hp : isPycacheDir c = true
        · simp [nodeKindAt, hf, hp]
        · have hwc : wfTree c = true := wfChildren_mem hch (findChild_mem hf)
          simp only [Bool.not_eq_true] at hp
          simp only [hf, hp, nodeKindAt, Bool.false_eq_true, if_false,
            Bool.false_or]
          exact ih c hwc

/-- Claim C9.  On a well-formed tree the cache cleanup leaves no directory
with the reserved cache name anywhere below the root, removes every node
lying at or below such a directory with its full contents, and leaves every
other file and directory in place: a path resolves after the cleanup exactly
when it resolved before without crossing a reserved-name cache directory,
and then to the same kind of node. -/
theorem clean_pycache_dirs_spec (t : FTree) (hwf : wfTree t = true) :
    anyPycacheBelow (clean_pycache_dirs t) = false ∧
    ∀ p : List String, nodeKindAt (clean_pycache_dirs t) p
      = if walkCrossesPyc t p = true then none else nodeKindAt t p :=
  ⟨clean_no_pycache t, fun p => clean_nodeKindAt p t hwf⟩

/-- Witness for C9 at a concrete tree with nested reserved-name cache
directories at two depths next to kept siblings. -/
theorem clean_pycache_dirs_spec_witness :
    wfTree (FTree.dir "root"
      [FTree.dir "__pycache__" [FTree.file "a.pyc"],
       FTree.dir "lib"
         [FTree.dir "__pycache__" [FTree.file "b.pyc"],
          FTree.file "keep.py"]]) = true ∧
    (anyPycacheBelow (clean_pycache_dirs (FTree.dir "root"
      [FTree.dir "__pycache__" [FTree.file "a.pyc"],
       FTree.dir "lib"
         [FTree.dir "__pycache__" [FTree.file "b.pyc"],
          FTree.file "keep.py"]])) = false ∧
     ∀ p : List String, nodeKindAt (clean_pycache_dirs (FTree.dir "root"
      [FTree.dir "__pycache__" [FTree.file "a.pyc"],
       FTree.dir "lib"
         [FTree.dir "__pycache__" [FTree.file "b.pyc"],
          FTree.file "keep.py"]])) p
      = if walkCrossesPyc (FTree.dir "root"
          [FTree.dir "__pycache__" [FTree.file "a.pyc"],
           FTree.dir "lib"
             [FTree.dir "__pycache__" [FTree.file "b.pyc"],
              FTree.file "keep.py"]]) p = true
        then none
        else nodeKindAt (FTree.dir "root"
          [FTree.dir "__pycache__" [FTree.file "a.pyc"],
           FTree.dir "lib"
             [FTree.dir "__pycache__" [FTree.file "b.pyc"],
              FTree.file "keep.py"]]) p) :=
  ⟨by simp +decide [wfTree, wfChildren, namesNodup, nameFree, FTree.name],
   clean_pycache_dirs_spec _
     (by simp +decide [wfTree, wfChildren, namesNodup, nameFree, FTree.name])⟩

end PyAppStandalone
